import Mathlib

/-!
Verification development for the ClaudeOS kernel sources.

Definitions are shallow embeddings of the C sources under src:
the VGA terminal driver, the shell command history, the boot call
sequence of kernel_main and the kernel panic routine are translated
directly from kernel.c and the demo kernel.  The physical frame
allocator, virtual memory manager, kernel heap, scheduler and syscall
dispatcher are not present under src (only their callers are); those
components are modelled from the specification, as marked in each
doc comment.
-/

namespace ClaudeOS

/-! ### VGA terminal (embedded from kernel.c / demo kernel) -/

def VGA_WIDTH : Nat := 80

def VGA_HEIGHT : Nat := 25

/-- A VGA cell as stored by vga_entry: character byte plus color byte shifted. -/
def vga_entry (uc : Nat) (color : Nat) : Nat :=
  uc % 256 + (color % 256) * 256

/-- Terminal driver state: cursor row and column, current color, and the
VGA text buffer viewed as a function from cell index to cell value. -/
structure TermState where
  row : Nat
  col : Nat
  color : Nat
  buf : Nat → Nat

/-- terminal_putentryat writes one VGA cell at (x, y). -/
def terminal_putentryat (c color x y : Nat) (buf : Nat → Nat) : Nat → Nat :=
  fun i => if i = y * VGA_WIDTH + x then vga_entry c color else buf i

/-- terminal_scroll moves every line up by one and clears the last line. -/
def terminal_scroll (buf : Nat → Nat) (color : Nat) : Nat → Nat :=
  fun i =>
    if i < (VGA_HEIGHT - 1) * VGA_WIDTH then buf (i + VGA_WIDTH)
    else if i < VGA_HEIGHT * VGA_WIDTH then vga_entry 32 color
    else buf i

/-- The newline byte. -/
def NEWLINE : Nat := 10

/-- The backspace byte. -/
def BACKSPACE : Nat := 8

/-- terminal_putchar, translated branch by branch from the C source with a
C char modelled as its byte value: newline resets the column and advances
(or scrolls at the bottom row), backspace steps the column back and blanks
the cell, and every other character is written at the cursor with column
wrap-around. -/
def terminal_putchar (c : Nat) (s : TermState) : TermState :=
  if c = NEWLINE then
    let row := s.row + 1
    if row = VGA_HEIGHT then
      { s with col := 0, row := VGA_HEIGHT - 1, buf := terminal_scroll s.buf s.color }
    else
      { s with col := 0, row := row }
  else if c = BACKSPACE then
    if s.col > 0 then
      let col := s.col - 1
      { s with col := col, buf := terminal_putentryat 32 s.color col s.row s.buf }
    else s
  else
    let buf := terminal_putentryat c s.color s.col s.row s.buf
    let col := s.col + 1
    if col = VGA_WIDTH then
      let row := s.row + 1
      if row = VGA_HEIGHT then
        { s with col := 0, row := VGA_HEIGHT - 1, buf := terminal_scroll buf s.color }
      else
        { s with col := 0, row := row, buf := buf }
    else
      { s with col := col, buf := buf }

/-! ### Shell command history (embedded from the demo kernel) -/

def HISTORY_SIZE : Nat := 10

def HISTORY_MAX_LEN : Nat := 255

/-- shell_strcmp from the demo kernel, over strings modelled as byte lists:
it advances while both strings continue and agree, then returns the
difference of the first differing bytes. -/
def shell_strcmp : List Nat → List Nat → Int
  | [], [] => 0
  | [], c2 :: _ => 0 - (c2 : Int)
  | c1 :: _, [] => (c1 : Int)
  | c1 :: r1, c2 :: r2 =>
    if c1 = c2 then shell_strcmp r1 r2
    else (c1 : Int) - (c2 : Int)

/-- simple_strcpy_safe copies at most max_len - 1 characters and terminates,
so the stored string is the source truncated to max_len - 1 characters. -/
def simple_strcpy_safe (src : List Nat) (max_len : Nat) : List Nat :=
  src.take (max_len - 1)

/-- A C string carries no embedded NUL byte; list models of C strings are
restricted to this predicate where string equality matters. -/
def NulFree (s : List Nat) : Prop := ∀ c ∈ s, c ≠ 0

instance (s : List Nat) : Decidable (NulFree s) := by
  unfold NulFree; infer_instance

/-- Command history state: the ten-slot circular entry array viewed as a
function from slot index to stored string, and the running counter. -/
structure HistState where
  entries : Nat → List Nat
  count : Nat

/-- add_to_history from the demo kernel: a null or empty command returns at
once; a command equal (by shell_strcmp) to the stored entry at slot
(count - 1) mod HISTORY_SIZE is not added; otherwise the command is copied,
truncated, into slot count mod HISTORY_SIZE and the counter is incremented. -/
def add_to_history (st : HistState) (command : Option (List Nat)) : HistState :=
  match command with
  | none => st
  | some cmd =>
    if cmd = [] then st
    else
      if st.count > 0 ∧ shell_strcmp (st.entries ((st.count - 1) % HISTORY_SIZE)) cmd = 0 then
        st
      else
        { entries := fun i =>
            if i = st.count % HISTORY_SIZE then
              simple_strcpy_safe cmd (HISTORY_MAX_LEN + 1)
            else st.entries i,
          count := st.count + 1 }

/-! ### Boot sequence (embedded from kernel_main in kernel.c) -/

/-- The initialization and startup steps performed by kernel_main in
kernel.c, in program order. -/
inductive BootEvent where
  | terminalInit
  | gdtInit
  | idtInit
  | picInit
  | timerInit
  | serialInit
  | keyboardInit
  | pmmInit
  | vmmInit
  | switchPageDir
  | enablePaging
  | heapInit
  | processInit
  | syscallInit
  | memfsInit
  | enableInterrupts
  | heapTests
  | processCreate
  | syscallTests
  | shellInit
  | shellLoop
deriving DecidableEq, Repr

/-- The call sequence of kernel_main, read off the body of kernel.c top to
bottom: terminal, GDT, IDT, PIC, timer, serial, keyboard, PMM, VMM, page
directory switch, paging enable, heap, process table, syscalls, MemFS, the
sti instruction, the heap demonstration, process creation, the syscall
tests, shell initialization, and the main loop. -/
def bootSequence : List BootEvent :=
  [BootEvent.terminalInit, BootEvent.gdtInit, BootEvent.idtInit,
   BootEvent.picInit, BootEvent.timerInit, BootEvent.serialInit,
   BootEvent.keyboardInit, BootEvent.pmmInit, BootEvent.vmmInit,
   BootEvent.switchPageDir, BootEvent.enablePaging, BootEvent.heapInit,
   BootEvent.processInit, BootEvent.syscallInit, BootEvent.memfsInit,
   BootEvent.enableInterrupts, BootEvent.heapTests, BootEvent.processCreate,
   BootEvent.syscallTests, BootEvent.shellInit, BootEvent.shellLoop]

/-! ### Physical frame allocator (modelled from the spec) -/

/-- Modelled from the spec: pmm.c is not under src, only its callers
(pmm_init, pmm_dump_stats in kernel_main) are.  The allocator tracks a
fixed number of frames in a bitmap, true meaning used, together with the
last allocation point for next-fit scanning. -/
structure PmmState where
  frames : List Bool
  lastAlloc : Nat
deriving DecidableEq, Repr

def free_count (s : PmmState) : Nat := s.frames.count false

def used_count (s : PmmState) : Nat := s.frames.count true

def total_frames (s : PmmState) : Nat := s.frames.length

/-- Modelled from the spec: init marks usable regions free and reserved or
kernel-image regions used, given by the reserved predicate over frame ids. -/
def pmm_init (n : Nat) (reserved : Nat → Bool) : PmmState :=
  ⟨(List.range n).map reserved, 0⟩

/-- Modelled from the spec: next-fit search for a free frame, scanning from
the last allocation point and wrapping around. -/
def findFree (frames : List Bool) (start : Nat) : Option Nat :=
  ((List.range frames.length).map (fun k => (start + k) % frames.length)).find?
    (fun i => ! frames.getD i true)

/-- Modelled from the spec: allocate returns one free frame and marks it
used, or OutOfMemory (none) when no frame is free. -/
def pmm_alloc (s : PmmState) : Option Nat × PmmState :=
  match findFree s.frames s.lastAlloc with
  | none => (none, s)
  | some i => (some i, ⟨s.frames.set i true, i⟩)

/-- Modelled from the spec: free marks a used frame free and fails with
DoubleFree (a fatal kernel-internal error) when the frame is already free
or the id is out of range. -/
def pmm_free (s : PmmState) (i : Nat) : Except Unit PmmState :=
  if i < s.frames.length then
    if s.frames.getD i true then Except.ok ⟨s.frames.set i false, s.lastAlloc⟩
    else Except.error ()
  else Except.error ()

inductive PmmOp where
  | alloc
  | free (i : Nat)

/-- Runs a sequence of allocator operations; a DoubleFree is fatal, so the
remaining operations are not executed. -/
def runPmm : PmmState → List PmmOp → PmmState
  | s, [] => s
  | s, PmmOp.alloc :: ops => runPmm (pmm_alloc s).2 ops
  | s, PmmOp.free i :: ops =>
    match pmm_free s i with
    | Except.ok s2 => runPmm s2 ops
    | Except.error _ => s

/-! ### Virtual memory manager (modelled from the spec) -/

/-- Modelled from the spec: vmm.c is not under src.  An address space maps
virtual pages to a frame id and permission bits. -/
def AddressSpace : Type := Nat → Option (Nat × Nat)

inductive VmmErr where
  | AlreadyMapped
  | NotMapped
  | OutOfMemory
deriving DecidableEq, Repr

/-- Modelled from the spec: map installs a mapping for a virtual page and
fails with AlreadyMapped when the page is already mapped. -/
def vmm_map (space : AddressSpace) (vpage frame perms : Nat) :
    Except VmmErr AddressSpace :=
  match space vpage with
  | some _ => Except.error VmmErr.AlreadyMapped
  | none => Except.ok (fun v => if v = vpage then some (frame, perms) else space v)

/-- Modelled from the spec: unmap removes a mapping and returns the frame id
to the caller; the frame allocator state passes through untouched, because
the VMM never frees the frame itself. -/
def vmm_unmap (space : AddressSpace) (vpage : Nat) (pmm : PmmState) :
    Except VmmErr (Nat × AddressSpace × PmmState) :=
  match space vpage with
  | none => Except.error VmmErr.NotMapped
  | some (frame, _) =>
    Except.ok (frame, fun v => if v = vpage then none else space v, pmm)

/-! ### Kernel heap (modelled from the spec) -/

/-- Modelled from the spec: heap.c is not under src, only kmalloc, kfree and
kcalloc callers are.  A heap block records its address, size and in-use
flag; the heap holds the block list and a byte-addressed memory view. -/
structure Block where
  addr : Nat
  size : Nat
  free : Bool
deriving DecidableEq, Repr

structure HeapState where
  blocks : List Block
  mem : Nat → Nat

/-- Modelled from the spec: first-fit search that splits a larger free block
and marks the chosen block in use, returning the block address. -/
def allocBlocks : List Block → Nat → Option (Nat × List Block)
  | [], _ => none
  | b :: rest, size =>
    if b.free ∧ size ≤ b.size then
      if size < b.size then
        some (b.addr,
          { addr := b.addr, size := size, free := false } ::
          { addr := b.addr + size, size := b.size - size, free := true } :: rest)
      else
        some (b.addr, { b with free := false } :: rest)
    else
      match allocBlocks rest size with
      | none => none
      | some (a, rest2) => some (a, b :: rest2)

/-- Modelled from the spec: alloc delegates to the first-fit search; none
means OutOfMemory. -/
def heap_alloc (h : HeapState) (size : Nat) : Option (Nat × HeapState) :=
  match allocBlocks h.blocks size with
  | none => none
  | some (a, bs) => some (a, { h with blocks := bs })

inductive CallocErr where
  | OutOfMemory
  | Overflow
deriving DecidableEq, Repr

/-- The 32-bit word bound of the target architecture (types.h defines
size_t as a 32-bit unsigned integer). -/
def WORD_MAX : Nat := 2 ^ 32

/-- Modelled from the spec: calloc fails with Overflow when n * size
overflows the 32-bit word size, before delegating to alloc; otherwise it
delegates to alloc and zeroes the returned region. -/
def heap_calloc (h : HeapState) (n size : Nat) : Except CallocErr (Nat × HeapState) :=
  if WORD_MAX ≤ n * size then Except.error CallocErr.Overflow
  else
    match heap_alloc h (n * size) with
    | none => Except.error CallocErr.OutOfMemory
    | some (a, h2) =>
      Except.ok (a,
        { h2 with mem := fun i => if a ≤ i ∧ i < a + n * size then 0 else h2.mem i })

/-! ### Process table and scheduler (modelled from the spec) -/

inductive PState where
  | NEW
  | READY
  | RUNNING
  | BLOCKED
  | TERMINATED
deriving DecidableEq, Repr

/-- Modelled from the spec: process.c is not under src.  The scheduler state
holds the per-PID process state, the FIFO ready queue of PIDs, and the
currently running PID if any. -/
structure SchedState where
  pstate : Nat → PState
  queue : List Nat
  running : Option Nat

/-- Modelled from the spec: schedule dequeues the head of the ready queue as
the next process, re-enqueues the preempted running process at the tail in
state READY, and marks the selected process RUNNING.  With an empty queue
nothing changes. -/
def schedule (s : SchedState) : Option Nat × SchedState :=
  match s.queue with
  | [] => (none, s)
  | next :: rest =>
    (some next,
      { pstate := fun pid =>
          if pid = next then PState.RUNNING
          else if some pid = s.running then PState.READY
          else s.pstate pid,
        queue := rest ++ (match s.running with | some p => [p] | none => []),
        running := some next })

/-- The list of scheduling decisions over k consecutive schedule calls. -/
def schedulePicks : Nat → SchedState → List (Option Nat)
  | 0, _ => []
  | k + 1, s => (schedule s).1 :: schedulePicks k (schedule s).2

/-- The scheduler state after k consecutive schedule calls. -/
def schedIter : Nat → SchedState → SchedState
  | 0, s => s
  | k + 1, s => schedIter k (schedule s).2

/-- The scheduler invariant: the ready queue holds no duplicate PID, the
running PID is never also queued, and every queued PID is READY. -/
structure SchedInv (s : SchedState) : Prop where
  nodup : s.queue.Nodup
  run_notin : ∀ r, s.running = some r → r ∉ s.queue
  ready : ∀ p ∈ s.queue, s.pstate p = PState.READY

/-! ### Syscall dispatcher (modelled from the spec) and observed surface -/

/-- Kernel-wide state visible across a syscall dispatch: frame allocator,
heap, and scheduler (ready queue) state. -/
structure KernelObs where
  pmm : PmmState
  heap : HeapState
  sched : SchedState

/-- A syscall handler consumes the kernel state and produces a result word
and the successor state. -/
def SyscallHandler : Type := KernelObs → Int × KernelObs

/-- The error code reported to the caller for an undefined syscall number. -/
def INVALID_SYSCALL : Int := -1

/-- Modelled from the spec: the dispatcher indexes a fixed table by syscall
number; an out-of-range number yields INVALID_SYSCALL and touches nothing. -/
def syscall_dispatch (table : List SyscallHandler) (num : Nat) (st : KernelObs) :
    Int × KernelObs :=
  match table.get? num with
  | some h => h st
  | none => (INVALID_SYSCALL, st)

/-- One entry of the syscall surface: the operation name and the number of
arguments its callers pass. -/
structure SyscallDecl where
  name : String
  arity : Nat
deriving DecidableEq, Repr

/-- The syscall invocations visible in the sources under src: kernel_main in
kernel.c calls syscall_hello with no argument, syscall_write with exactly
one argument (a string pointer), and syscall_getpid with no argument. -/
def observedSyscallCalls : List SyscallDecl :=
  [⟨"hello", 0⟩, ⟨"write", 1⟩, ⟨"getpid", 0⟩]

/-- The syscall surface: hello, write and getpid carry the arities observed
at their call sites under src; yield and exit are modelled from the spec,
their handlers not being under src. -/
def syscallSurface : List SyscallDecl :=
  [⟨"hello", 0⟩, ⟨"write", 1⟩, ⟨"getpid", 0⟩, ⟨"yield", 0⟩, ⟨"exit", 1⟩]

/-! ### Kernel panic (embedded from kernel.c) -/

inductive FatalError where
  | DoubleFree
  | InvalidFree
  | AlreadyMapped
  | NotMapped
deriving DecidableEq, Repr

inductive KernelMode where
  | running
  | halted
deriving DecidableEq, Repr

/-- The outcome of a panic: the diagnostic lines printed and the CPU mode. -/
structure PanicOut where
  printed : List String
  mode : KernelMode

/-- kernel_panic from kernel.c: prints the panic banner, the message and the
halt notice, then enters the hlt loop, leaving the CPU halted. -/
def kernel_panic (message : String) : PanicOut :=
  { printed := ["*** KERNEL PANIC ***", message, "System halted."],
    mode := KernelMode.halted }

/-- One iteration of the closing loop of kernel_panic: the hlt instruction
is executed and control returns to the top of the loop, so the CPU stays
halted whatever happens. -/
def hltStep : KernelMode → KernelMode
  | _ => KernelMode.halted

/-- The diagnostic message attached to each fatal kernel-internal error. -/
def fatalErrorMessage : FatalError → String
  | FatalError.DoubleFree => "DoubleFree"
  | FatalError.InvalidFree => "InvalidFree"
  | FatalError.AlreadyMapped => "AlreadyMapped"
  | FatalError.NotMapped => "NotMapped"

/-- Modelled from the spec: the detection sites in the allocator, VMM and
heap (not under src) route every fatal kernel-internal error into
kernel_panic with its diagnostic message. -/
def handle_fatal (e : FatalError) : PanicOut :=
  kernel_panic (fatalErrorMessage e)

/-! ## Theorems -/

/-- C9: for every character byte, if the cursor satisfies row < 25 and
col < 80 before terminal_putchar, it satisfies them again afterwards:
newline and column wrap-around either increment the row or scroll and clamp
it to VGA_HEIGHT - 1, so the cursor stays inside the 80 x 25 VGA buffer. -/
theorem terminal_putchar_in_bounds (c : Nat) (s : TermState)
    (hr : s.row < VGA_HEIGHT) (hc : s.col < VGA_WIDTH) :
    (terminal_putchar c s).row < VGA_HEIGHT ∧
    (terminal_putchar c s).col < VGA_WIDTH := by
  simp only [VGA_HEIGHT, VGA_WIDTH] at hr hc ⊢
  unfold terminal_putchar
  simp only [VGA_HEIGHT, VGA_WIDTH]
  split_ifs <;> simp_all <;> omega

/-- C9 witness: the bound preservation instantiated at a concrete printable
byte and cursor position. -/
theorem terminal_putchar_in_bounds_witness :
    (terminal_putchar 65 ⟨24, 79, 7, fun _ => 0⟩).row < VGA_HEIGHT ∧
    (terminal_putchar 65 ⟨24, 79, 7, fun _ => 0⟩).col < VGA_WIDTH :=
  terminal_putchar_in_bounds 65 ⟨24, 79, 7, fun _ => 0⟩ (by decide) (by decide)

/-- C1 counterexample: the claim places the installation of the periodic
timer interrupt after process-table initialization, but in kernel_main the
timer is initialized before the process table (indeed before the PFA). -/
theorem boot_timer_not_installed_after_process_init :
    ¬ bootSequence.indexOf BootEvent.processInit <
      bootSequence.indexOf BootEvent.timerInit := by
  decide

/-- C1 amended: kernel_main initializes PFA, then VMM, then enables paging,
then the heap, then the process table, in that order; the hardware timer is
initialized earlier in the boot sequence (before the PFA), and the timer
interrupt only becomes deliverable when interrupts are enabled, which
happens after all of these initializations and before any process is
created and the main loop is entered. -/
theorem boot_order_amended :
    bootSequence.indexOf BootEvent.pmmInit <
      bootSequence.indexOf BootEvent.vmmInit ∧
    bootSequence.indexOf BootEvent.vmmInit <
      bootSequence.indexOf BootEvent.enablePaging ∧
    bootSequence.indexOf BootEvent.enablePaging <
      bootSequence.indexOf BootEvent.heapInit ∧
    bootSequence.indexOf BootEvent.heapInit <
      bootSequence.indexOf BootEvent.processInit ∧
    bootSequence.indexOf BootEvent.timerInit <
      bootSequence.indexOf BootEvent.pmmInit ∧
    bootSequence.indexOf BootEvent.processInit <
      bootSequence.indexOf BootEvent.enableInterrupts ∧
    bootSequence.indexOf BootEvent.enableInterrupts <
      bootSequence.indexOf BootEvent.processCreate ∧
    bootSequence.indexOf BootEvent.processCreate <
      bootSequence.indexOf BootEvent.shellLoop := by
  decide

/-- C4 counterexample: the syscall write operation is invoked in kernel_main
with exactly one argument (a string pointer), so the observed surface
declares write with arity one, not the arity two (pointer and length) the
claim asserts. -/
theorem syscall_write_observed_arity_one :
    SyscallDecl.mk "write" 1 ∈ observedSyscallCalls ∧
    SyscallDecl.mk "write" 2 ∉ observedSyscallCalls ∧
    ∀ d ∈ observedSyscallCalls, d.name = "write" → d.arity = 1 := by
  decide

/-- C4 amended: the syscall surface exposes at least the five operations
hello, write, getpid, yield and exit, where write takes a single argument,
a pointer to a NUL-terminated string, rather than a pointer and a length. -/
theorem syscall_surface_amended :
    SyscallDecl.mk "hello" 0 ∈ syscallSurface ∧
    SyscallDecl.mk "write" 1 ∈ syscallSurface ∧
    SyscallDecl.mk "getpid" 0 ∈ syscallSurface ∧
    SyscallDecl.mk "yield" 0 ∈ syscallSurface ∧
    SyscallDecl.mk "exit" 1 ∈ syscallSurface ∧
    5 ≤ syscallSurface.length ∧
    (∀ d ∈ syscallSurface, d.name = "write" → d.arity = 1) := by
  decide

/-- Helper: on a Bool list the false count and the true count add up to the
length. -/
theorem count_false_add_count_true (l : List Bool) :
    l.count false + l.count true = l.length := by
  induction l with
  | nil => rfl
  | cons b t ih => cases b <;> simp [List.count_cons] <;> omega

/-- Helper: the next-fit search only returns the index of a free frame. -/
theorem findFree_some_free (frames : List Bool) (start i : Nat)
    (h : findFree frames start = some i) : frames.getD i true = false := by
  unfold findFree at h
  have hp := List.find?_some h
  simpa using hp

/-- Helper: a successful allocation picks a frame that was free and marks
exactly that frame used. -/
theorem pmm_alloc_some_spec (s : PmmState) (i : Nat) (s2 : PmmState)
    (h : pmm_alloc s = (some i, s2)) :
    s.frames.getD i true = false ∧ s2.frames.getD i false = true := by
  unfold pmm_alloc at h
  cases hf : findFree s.frames s.lastAlloc with
  | none => rw [hf] at h; cases h
  | some j =>
    rw [hf, Prod.mk.injEq, Option.some.injEq] at h
    obtain ⟨h1, h2⟩ := h
    subst h1
    subst h2
    have hfree := findFree_some_free s.frames s.lastAlloc j hf
    refine ⟨hfree, ?_⟩
    have hlt : j < s.frames.length := by
      by_contra hge
      push_neg at hge
      rw [List.getD_eq_getElem?_getD, List.getElem?_eq_none (by omega)] at hfree
      cases hfree
    rw [List.getD_eq_getElem?_getD, List.getElem?_set_self hlt]
    rfl

/-- Helper: a successful free only rewrites one bitmap slot, keeping the
frame count. -/
theorem pmm_free_ok_length (s : PmmState) (i : Nat) (s2 : PmmState)
    (h : pmm_free s i = Except.ok s2) : s2.frames.length = s.frames.length := by
  unfold pmm_free at h
  by_cases h1 : i < s.frames.length
  · rw [if_pos h1] at h
    by_cases h2 : s.frames.getD i true = true
    · rw [if_pos h2] at h
      cases h
      simp
    · rw [if_neg h2] at h
      cases h
  · rw [if_neg h1] at h
    cases h

/-- Helper: running any operation sequence never changes the number of
frames the allocator tracks. -/
theorem runPmm_length (ops : List PmmOp) : ∀ s : PmmState,
    (runPmm s ops).frames.length = s.frames.length := by
  induction ops with
  | nil => intro s; rfl
  | cons op rest ih =>
    intro s
    cases op with
    | alloc =>
      have hstep : (runPmm s (PmmOp.alloc :: rest)) = runPmm (pmm_alloc s).2 rest := rfl
      rw [hstep, ih]
      unfold pmm_alloc
      cases hf : findFree s.frames s.lastAlloc <;> simp
    | free i =>
      simp only [runPmm]
      split
      · next s2 heq => rw [ih, pmm_free_ok_length s i s2 heq]
      · rfl

/-- C2: for every operation sequence on the physical frame allocator from
the initialized state, the free count plus the used count equals the total
frame count afterwards, and allocate never returns a frame id that is
currently marked used (the returned id reads free before the call and used
after it). -/
theorem pmm_alloc_free_invariant (n : Nat) (r : Nat → Bool) (ops : List PmmOp) :
    free_count (runPmm (pmm_init n r) ops) +
      used_count (runPmm (pmm_init n r) ops) = n ∧
    (∀ i s2, pmm_alloc (runPmm (pmm_init n r) ops) = (some i, s2) →
      (runPmm (pmm_init n r) ops).frames.getD i true = false ∧
      s2.frames.getD i false = true) := by
  constructor
  · have h1 := count_false_add_count_true (runPmm (pmm_init n r) ops).frames
    have h2 := runPmm_length ops (pmm_init n r)
    have h3 : (pmm_init n r).frames.length = n := by simp [pmm_init]
    unfold free_count used_count
    omega
  · intro i s2 h
    exact pmm_alloc_some_spec _ i s2 h

/-- C2 witness: the invariant and the allocate postcondition at a concrete
three-frame allocator after one allocation. -/
theorem pmm_alloc_free_invariant_witness :
    free_count (runPmm (pmm_init 3 (fun _ => false)) [PmmOp.alloc]) +
      used_count (runPmm (pmm_init 3 (fun _ => false)) [PmmOp.alloc]) = 3 ∧
    (runPmm (pmm_init 3 (fun _ => false)) []).frames.getD 0 true = false :=
  ⟨(pmm_alloc_free_invariant 3 (fun _ => false) [PmmOp.alloc]).1,
   ((pmm_alloc_free_invariant 3 (fun _ => false) []).2 0
     ⟨(pmm_init 3 (fun _ => false)).frames.set 0 true, 0⟩ (by decide)).1⟩

/-- C3: a successful map of a frame at a virtual page followed immediately
by unmap of that page returns exactly the mapped frame, and the frame
allocator state passes through unmap unchanged: the frame is not freed,
its ownership returns to the caller. -/
theorem vmm_map_unmap_roundtrip (space : AddressSpace) (vpage frame perms : Nat)
    (pmm : PmmState) (space2 : AddressSpace)
    (h : vmm_map space vpage frame perms = Except.ok space2) :
    ∃ space3, vmm_unmap space2 vpage pmm = Except.ok (frame, space3, pmm) := by
  unfold vmm_map at h
  cases hv : space vpage with
  | some p => rw [hv] at h; cases h
  | none =>
    rw [hv, Except.ok.injEq] at h
    subst h
    refine ⟨fun v => if v = vpage then none
      else if v = vpage then some (frame, perms) else space v, ?_⟩
    unfold vmm_unmap
    simp

/-- C3 witness: the round trip at a concrete empty address space, page 5,
frame 7, permissions 3 and a concrete allocator state. -/
theorem vmm_map_unmap_roundtrip_witness :
    ∃ space3, vmm_unmap (fun v => if v = 5 then some (7, 3) else none) 5
      (pmm_init 2 (fun _ => false)) =
      Except.ok (7, space3, pmm_init 2 (fun _ => false)) :=
  vmm_map_unmap_roundtrip (fun _ => none) 5 7 3 (pmm_init 2 (fun _ => false))
    (fun v => if v = 5 then some (7, 3) else none) rfl

/-- C5: dispatching a syscall number outside the table range returns the
INVALID_SYSCALL error to the caller and leaves the kernel state exactly
unchanged: same state, and in particular same frame counts, same ready
queue and same heap block layout. -/
theorem dispatch_invalid_syscall (table : List SyscallHandler) (num : Nat)
    (st : KernelObs) (h : table.length ≤ num) :
    syscall_dispatch table num st = (INVALID_SYSCALL, st) ∧
    free_count (syscall_dispatch table num st).2.pmm = free_count st.pmm ∧
    used_count (syscall_dispatch table num st).2.pmm = used_count st.pmm ∧
    (syscall_dispatch table num st).2.sched.queue = st.sched.queue ∧
    (syscall_dispatch table num st).2.heap.blocks = st.heap.blocks := by
  have hg : table.get? num = none := List.get?_eq_none.mpr h
  unfold syscall_dispatch
  rw [hg]
  exact ⟨rfl, rfl, rfl, rfl, rfl⟩

/-- C5 witness: dispatching number 9 against the empty table at a concrete
kernel state reports INVALID_SYSCALL and returns the state unchanged. -/
theorem dispatch_invalid_syscall_witness :
    syscall_dispatch [] 9
      ⟨pmm_init 1 (fun _ => false), ⟨[], fun _ => 0⟩,
        ⟨fun _ => PState.NEW, [], none⟩⟩ =
    (INVALID_SYSCALL,
      ⟨pmm_init 1 (fun _ => false), ⟨[], fun _ => 0⟩,
        ⟨fun _ => PState.NEW, [], none⟩⟩) :=
  (dispatch_invalid_syscall [] 9
    ⟨pmm_init 1 (fun _ => false), ⟨[], fun _ => 0⟩,
      ⟨fun _ => PState.NEW, [], none⟩⟩ (by decide)).1

/-- C7: calloc returns the Overflow error whenever n * size overflows the
32-bit word, without reaching alloc; otherwise it delegates to alloc,
reporting OutOfMemory exactly when alloc fails and returning the block
alloc chose when it succeeds; and each byte of a successfully returned
region reads zero. -/
theorem heap_calloc_spec (h : HeapState) (n size : Nat) :
    (WORD_MAX ≤ n * size → heap_calloc h n size = Except.error CallocErr.Overflow) ∧
    (n * size < WORD_MAX → heap_alloc h (n * size) = none →
      heap_calloc h n size = Except.error CallocErr.OutOfMemory) ∧
    (∀ a h2, n * size < WORD_MAX → heap_alloc h (n * size) = some (a, h2) →
      ∃ h3, heap_calloc h n size = Except.ok (a, h3)) ∧
    (∀ a h3, heap_calloc h n size = Except.ok (a, h3) →
      ∀ i, a ≤ i → i < a + n * size → h3.mem i = 0) := by
  refine ⟨?_, ?_, ?_, ?_⟩
  · intro hov
    unfold heap_calloc
    rw [if_pos hov]
  · intro hlt hnone
    unfold heap_calloc
    rw [if_neg (by omega)]
    rw [hnone]
  · intro a h2 hlt hsome
    unfold heap_calloc
    rw [if_neg (by omega), hsome]
    exact ⟨_, rfl⟩
  · intro a h3 hok i hi1 hi2
    unfold heap_calloc at hok
    by_cases hov : WORD_MAX ≤ n * size
    · rw [if_pos hov] at hok; cases hok
    · rw [if_neg hov] at hok
      cases hal : heap_alloc h (n * size) with
      | none => rw [hal] at hok; cases hok
      | some p =>
        obtain ⟨b, h2⟩ := p
        rw [hal, Except.ok.injEq, Prod.mk.injEq] at hok
        obtain ⟨hba, hh3⟩ := hok
        subst hba
        subst hh3
        show (if b ≤ i ∧ i < b + n * size then 0 else h2.mem i) = 0
        rw [if_pos ⟨hi1, hi2⟩]

/-- C7 witness: the overflow case at 65536 * 65536 and the zeroing of a byte
of a concretely allocated region. -/
theorem heap_calloc_spec_witness :
    heap_calloc ⟨[⟨0, 100, true⟩], fun _ => 7⟩ 65536 65536 =
      Except.error CallocErr.Overflow ∧
    (⟨[⟨0, 6, false⟩, ⟨6, 94, true⟩],
      fun i => if 0 ≤ i ∧ i < 6 then 0 else 7⟩ : HeapState).mem 4 = 0 :=
  ⟨(heap_calloc_spec ⟨[⟨0, 100, true⟩], fun _ => 7⟩ 65536 65536).1
    (by norm_num [WORD_MAX]),
   (heap_calloc_spec ⟨[⟨0, 100, true⟩], fun _ => 7⟩ 2 3).2.2.2 0
    ⟨[⟨0, 6, false⟩, ⟨6, 94, true⟩], fun i => if 0 ≤ i ∧ i < 6 then 0 else 7⟩
    rfl 4 (by decide) (by decide)⟩

/-- Helper: on a nonempty queue, schedule selects the head, re-enqueues the
preempted running process at the tail and marks the head RUNNING. -/
theorem schedule_cons (s : SchedState) (a : Nat) (rest : List Nat)
    (hq : s.queue = a :: rest) :
    schedule s = (some a,
      { pstate := fun pid =>
          if pid = a then PState.RUNNING
          else if some pid = s.running then PState.READY
          else s.pstate pid,
        queue := rest ++ (match s.running with | some p => [p] | none => []),
        running := some a }) := by
  simp only [schedule, hq]

/-- Helper: the first k scheduling decisions from a state with at least k
queued PIDs select exactly the first k queued PIDs, in FIFO order. -/
theorem schedulePicks_take (k : Nat) : ∀ s : SchedState, k ≤ s.queue.length →
    schedulePicks k s = (s.queue.take k).map some := by
  induction k with
  | zero => intro s _; simp [schedulePicks]
  | succ k ih =>
    intro s hk
    cases hq : s.queue with
    | nil => rw [hq] at hk; simp at hk
    | cons a rest =>
      have hk2 : k ≤ rest.length := by
        rw [hq] at hk; simp at hk; omega
      have hsch := schedule_cons s a rest hq
      have h1 : (schedule s).1 = some a := by rw [hsch]
      have h2q : (schedule s).2.queue =
          rest ++ (match s.running with | some p => [p] | none => []) := by
        rw [hsch]
      have hlen : k ≤ ((schedule s).2.queue).length := by
        rw [h2q]
        simp only [List.length_append]
        omega
      rw [schedulePicks, h1, ih (schedule s).2 hlen, h2q,
        List.take_append_of_le_length hk2]
      simp

/-- Helper: schedule preserves the scheduler invariant. -/
theorem schedInv_preserved (s : SchedState) (hinv : SchedInv s) :
    SchedInv (schedule s).2 := by
  cases hq : s.queue with
  | nil =>
    have heq : (schedule s).2 = s := by simp only [schedule, hq]
    rw [heq]; exact hinv
  | cons a rest =>
    have hnodup := hinv.nodup
    rw [hq] at hnodup
    have hanotin : a ∉ rest := (List.nodup_cons.mp hnodup).1
    have hrestnodup : rest.Nodup := (List.nodup_cons.mp hnodup).2
    rw [schedule_cons s a rest hq]
    constructor
    · show (rest ++ _).Nodup
      cases hr : s.running with
      | none => simpa using hrestnodup
      | some r =>
        have hrnotin : r ∉ s.queue := hinv.run_notin r hr
        rw [hq] at hrnotin
        simp only [List.nodup_append, List.nodup_cons]
        refine ⟨hrestnodup, by simp, ?_⟩
        intro x hx hxr
        rw [List.mem_singleton] at hxr
        subst hxr
        exact hrnotin (List.mem_cons_of_mem a hx)
    · intro p hp
      rw [Option.some.injEq] at hp
      subst hp
      intro hmem
      rcases List.mem_append.mp hmem with hin | hin
      · exact hanotin hin
      · cases hr : s.running with
        | none => rw [hr] at hin; simp at hin
        | some r =>
          rw [hr] at hin
          rw [List.mem_singleton] at hin
          subst hin
          exact hinv.run_notin a hr (hq ▸ List.mem_cons_self a rest)
    · intro p hp
      show (if p = a then PState.RUNNING
        else if some p = s.running then PState.READY else s.pstate p) =
        PState.READY
      rcases List.mem_append.mp hp with hin | hin
      · have hpa : p ≠ a := fun hpeq => hanotin (hpeq ▸ hin)
        rw [if_neg hpa]
        by_cases hpr : some p = s.running
        · rw [if_pos hpr]
        · rw [if_neg hpr]
          exact hinv.ready p (hq ▸ List.mem_cons_of_mem a hin)
      · cases hr : s.running with
        | none => rw [hr] at hin; simp at hin
        | some r =>
          rw [hr] at hin
          rw [List.mem_singleton] at hin
          have hspr : some p = some r := by rw [hin]
          have hpa : p ≠ a := by
            intro hpeq
            apply hinv.run_notin r hr
            rw [hq, ← hin, hpeq]
            exact List.mem_cons_self a rest
          rw [if_neg hpa, if_pos hspr]

/-- Helper: the scheduler invariant holds after any number of schedule
calls. -/
theorem schedInv_iter (k : Nat) : ∀ s : SchedState, SchedInv s →
    SchedInv (schedIter k s) := by
  induction k with
  | zero => intro s h; exact h
  | succ k ih => intro s h; exact ih (schedule s).2 (schedInv_preserved s h)

/-- Helper: under the invariant, a selected PID was READY when selected. -/
theorem schedule_pick_ready (s : SchedState) (hinv : SchedInv s) (p : Nat)
    (h : (schedule s).1 = some p) : s.pstate p = PState.READY := by
  cases hq : s.queue with
  | nil =>
    have hnone : (schedule s).1 = none := by simp only [schedule, hq]
    rw [hnone] at h; cases h
  | cons a rest =>
    rw [schedule_cons s a rest hq] at h
    simp only [Option.some.injEq] at h
    subst h
    exact hinv.ready a (hq ▸ List.mem_cons_self a rest)

/-- C6: from any scheduler state satisfying the invariant with N queued
READY PCBs, every one of those N PCBs is selected within the next N
scheduling decisions, and no scheduling decision, now or after any number
of further schedule calls, ever selects a PCB that is not READY. -/
theorem round_robin_fairness (s : SchedState) (N : Nat)
    (hN : s.queue.length = N) (hinv : SchedInv s) :
    (∀ p ∈ s.queue, some p ∈ schedulePicks N s) ∧
    (∀ k p, (schedule (schedIter k s)).1 = some p →
      (schedIter k s).pstate p = PState.READY) := by
  constructor
  · intro p hp
    rw [schedulePicks_take N s (by omega)]
    rw [← hN, List.take_length]
    exact List.mem_map_of_mem some hp
  · intro k p h
    exact schedule_pick_ready (schedIter k s) (schedInv_iter k s hinv) p h

/-- C6 witness: with two READY processes queued as 1 then 2, process 1 is
selected within the next two scheduling decisions. -/
theorem round_robin_fairness_witness :
    some 1 ∈ schedulePicks 2
      ⟨fun p => if p = 1 ∨ p = 2 then PState.READY else PState.NEW, [1, 2], none⟩ :=
  (round_robin_fairness
    ⟨fun p => if p = 1 ∨ p = 2 then PState.READY else PState.NEW, [1, 2], none⟩ 2
    rfl ⟨by decide, (fun r hr => nomatch hr), by decide⟩).1 1 (by decide)

/-- Helper: shell_strcmp of a string with itself is zero. -/
theorem shell_strcmp_self (a : List Nat) : shell_strcmp a a = 0 := by
  induction a with
  | nil => rfl
  | cons c r ih => simpa [shell_strcmp] using ih

/-- Helper: on NUL-free strings, shell_strcmp returning zero means the
strings are equal. -/
theorem shell_strcmp_eq_zero : ∀ a b : List Nat, NulFree a → NulFree b →
    shell_strcmp a b = 0 → a = b
  | [], [], _, _, _ => rfl
  | [], c2 :: r2, _, hb, h => by
    exfalso
    have h2 : (0 : Int) - (c2 : Int) = 0 := h
    have hc : c2 = 0 := by omega
    exact hb c2 (List.mem_cons_self c2 r2) hc
  | c1 :: r1, [], ha, _, h => by
    exfalso
    have h2 : (c1 : Int) = 0 := h
    have hc : c1 = 0 := by exact_mod_cast h2
    exact ha c1 (List.mem_cons_self c1 r1) hc
  | c1 :: r1, c2 :: r2, ha, hb, h => by
    by_cases hc : c1 = c2
    · subst hc
      have hr : r1 = r2 :=
        shell_strcmp_eq_zero r1 r2
          (fun c hm => ha c (List.mem_cons_of_mem c1 hm))
          (fun c hm => hb c (List.mem_cons_of_mem c1 hm))
          (by simpa [shell_strcmp] using h)
      rw [hr]
    · exfalso
      have h2 : (c1 : Int) - (c2 : Int) = 0 := by
        simpa [shell_strcmp, hc] using h
      exact hc (by omega)

/-- C10: add_to_history leaves the history completely unchanged when the
command is a null pointer, the empty string, or equal to the most recently
added entry; otherwise it stores the command, truncated to HISTORY_MAX_LEN
characters, at slot count mod HISTORY_SIZE, leaves every other slot
untouched, and increments the counter by exactly one. -/
theorem add_to_history_spec (st : HistState) (cmd : Option (List Nat))
    (hent : ∀ i, NulFree (st.entries i)) (hnf : ∀ s, cmd = some s → NulFree s) :
    (cmd = none → add_to_history st cmd = st) ∧
    (cmd = some [] → add_to_history st cmd = st) ∧
    (∀ s, cmd = some s → 0 < st.count →
      st.entries ((st.count - 1) % HISTORY_SIZE) = s →
      add_to_history st cmd = st) ∧
    (∀ s, cmd = some s → s ≠ [] →
      ¬(0 < st.count ∧ st.entries ((st.count - 1) % HISTORY_SIZE) = s) →
      (add_to_history st cmd).count = st.count + 1 ∧
      (add_to_history st cmd).entries (st.count % HISTORY_SIZE) =
        s.take HISTORY_MAX_LEN ∧
      (∀ i, i ≠ st.count % HISTORY_SIZE →
        (add_to_history st cmd).entries i = st.entries i)) := by
  refine ⟨?_, ?_, ?_, ?_⟩
  · intro h; subst h; rfl
  · intro h; subst h; rfl
  · intro s hs hcnt heq
    subst hs
    by_cases hnil : s = []
    · subst hnil; rfl
    · simp only [add_to_history]
      rw [if_neg hnil]
      rw [if_pos ⟨hcnt, by rw [heq]; exact shell_strcmp_self s⟩]
  · intro s hs hne hskip
    subst hs
    have hcond : ¬(st.count > 0 ∧
        shell_strcmp (st.entries ((st.count - 1) % HISTORY_SIZE)) s = 0) := by
      rintro ⟨h1, h2⟩
      exact hskip ⟨h1, shell_strcmp_eq_zero _ s (hent _) (hnf s rfl) h2⟩
    simp only [add_to_history]
    rw [if_neg hne, if_neg hcond]
    refine ⟨rfl, ?_, ?_⟩
    · show (if st.count % HISTORY_SIZE = st.count % HISTORY_SIZE then
        simple_strcpy_safe s (HISTORY_MAX_LEN + 1) else st.entries _) =
        s.take HISTORY_MAX_LEN
      rw [if_pos rfl]
      rfl
    · intro i hi
      show (if i = st.count % HISTORY_SIZE then
        simple_strcpy_safe s (HISTORY_MAX_LEN + 1) else st.entries i) =
        st.entries i
      rw [if_neg hi]

/-- C10 witness: adding a two-character command to an empty history bumps
the counter from 0 to 1. -/
theorem add_to_history_spec_witness :
    (add_to_history ⟨fun _ => [], 0⟩ (some [104, 105])).count = 0 + 1 :=
  ((add_to_history_spec ⟨fun _ => [], 0⟩ (some [104, 105])
      (fun _ => (by decide : NulFree []))
      (fun s hs => by cases hs; decide)).2.2.2 [104, 105] rfl
    (by decide) (by simp)).1

/-- C8: every fatal kernel-internal error is routed into kernel_panic, which
prints its diagnostic message and leaves the CPU halted; iterating the
closing hlt loop any number of steps keeps the CPU halted, so the kernel
never resumes after such an error. -/
theorem fatal_error_halts_forever (e : FatalError) (n : Nat) :
    (handle_fatal e).mode = KernelMode.halted ∧
    fatalErrorMessage e ∈ (handle_fatal e).printed ∧
    hltStep^[n] (handle_fatal e).mode = KernelMode.halted := by
  refine ⟨rfl, ?_, ?_⟩
  · simp [handle_fatal, kernel_panic]
  · exact Function.iterate_fixed rfl n

end ClaudeOS
